import Mathlib

/-!
Verification development for the `token-bucket` rate-limiting library.

Shallow embedding conventions:
* `Duration` values are modelled as natural numbers of nanoseconds
  (Rust's `Duration` holds whole nanoseconds); `Instant` values are natural
  numbers of nanoseconds on the monotonic clock.
* `u32` values are natural numbers; where the Rust code performs a
  truncating cast (`as u32`) or a wrapping addition, the model takes the
  remainder modulo `2^32` explicitly.
* Fallible operations return `Except Nat Unit`, with the error carrying the
  `NotUntil` deadline (an instant, in nanoseconds).
* Operations that can panic in Rust (`expect`/`unwrap` on an unregistered
  key) return `Option`, with `none` marking the panic.
* Reading the clock (`Instant::now()`, `Instant::elapsed()`) is modelled by
  an explicit `now` argument; one call of an operation observes one instant.
-/

/-- `Duration::as_micros`: a duration of `d` nanoseconds is `d / 1000`
whole microseconds. -/
def asMicros (d : Nat) : Nat := d / 1000

/-- `Duration::from_micros(u)` for a `u64` argument `u`: the cast to `u64`
wraps modulo `2^64` and the resulting duration is `u * 1000` nanoseconds. -/
def fromMicros (u : Nat) : Nat := (u % 2 ^ 64) * 1000

/-- `Quota` from `src/quota.rs`: `max_burst` is a `NonZeroU32` (so the
intended range is `1 ≤ max_burst < 2^32`), `replenish_1_per` is a
`Duration` in nanoseconds. -/
structure Quota where
  max_burst : Nat
  replenish_1_per : Nat
deriving DecidableEq

/-- `Quota::per_second`: `replenish_interval_micros = 10^6 / max_burst`
(integer division on `u128`), then `Duration::from_micros(... as u64)`. -/
def Quota.per_second (max_burst : Nat) : Quota :=
  { max_burst := max_burst
    replenish_1_per := fromMicros (1000000 / max_burst) }

/-- `Quota::per_minute`: same with a 60-second period. -/
def Quota.per_minute (max_burst : Nat) : Quota :=
  { max_burst := max_burst
    replenish_1_per := fromMicros (60000000 / max_burst) }

/-- `Quota::per_hour`: same with a 3600-second period. -/
def Quota.per_hour (max_burst : Nat) : Quota :=
  { max_burst := max_burst
    replenish_1_per := fromMicros (3600000000 / max_burst) }

/-- `Quota::with_period`: returns `None` when the duration is zero whole
microseconds (`replenish_1_per.as_micros() == 0`), otherwise a quota with
burst 1 and the given interval. -/
def Quota.with_period (replenish_1_per : Nat) : Option Quota :=
  if asMicros replenish_1_per = 0 then none
  else some { max_burst := 1, replenish_1_per := replenish_1_per }

/-- `Quota::allow_burst`: replace `max_burst`, keep the interval. -/
def Quota.allow_burst (q : Quota) (max_burst : Nat) : Quota :=
  { q with max_burst := max_burst }

/-- `TokenBucket` from `src/token_bucket.rs`: `tokens` is a `u32`,
`last_update` an `Instant` (nanoseconds of the monotonic clock). -/
structure TokenBucket where
  quota : Quota
  tokens : Nat
  last_update : Nat
deriving DecidableEq

/-- `TokenBucket::new`: starts with `tokens: 0` and
`last_update: Instant::now()` (the construction instant `now`). -/
def TokenBucket.new (quota : Quota) (now : Nat) : TokenBucket :=
  { quota := quota, tokens := 0, last_update := now }

/-- `TokenBucket::check_n`: returns `Ok` when `n <= tokens`; otherwise
computes `need_tokens = n - tokens` and
`need_dur = replenish_1_per * need_tokens`, and returns
`Err(last_update + need_dur)` when `last_update.elapsed() < need_dur`
(elapsed time is `now - last_update`), and `Ok` otherwise. -/
def TokenBucket.check_n (b : TokenBucket) (n : Nat) (now : Nat) : Except Nat Unit :=
  if n ≤ b.tokens then Except.ok ()
  else if now - b.last_update < b.quota.replenish_1_per * (n - b.tokens) then
    Except.error (b.last_update + b.quota.replenish_1_per * (n - b.tokens))
  else Except.ok ()

/-- The refresh stage of `TokenBucket::try_take_n`:
`earned_tokens = (elapsed.as_micros() / replenish_1_per.as_micros()) as u32`
(the cast truncates modulo `2^32`),
`tokens = min(tokens + earned_tokens, max_burst)` (the `u32` addition wraps
modulo `2^32`; in a debug build it would panic on overflow instead),
`last_update = now`. -/
def TokenBucket.refresh (b : TokenBucket) (now : Nat) : TokenBucket :=
  let earned_tokens := (asMicros (now - b.last_update) / asMicros b.quota.replenish_1_per) % 2 ^ 32
  { b with
    tokens := min ((b.tokens + earned_tokens) % 2 ^ 32) b.quota.max_burst
    last_update := now }

/-- `TokenBucket::try_take_n`: refresh unconditionally, then delegate to
`check_n` (whose elapsed time is now `now - now = 0`), and on success
deduct `n` from `tokens`. Returns the new bucket state together with the
result. -/
def TokenBucket.try_take_n (b : TokenBucket) (n : Nat) (now : Nat) :
    TokenBucket × Except Nat Unit :=
  match (b.refresh now).check_n n now with
  | Except.ok () => ({ b.refresh now with tokens := (b.refresh now).tokens - n }, Except.ok ())
  | Except.error d => (b.refresh now, Except.error d)

/-- `TokenBucketUltimate` from `src/token_multi_ultimate.rs`: a
`HashMap<String, TokenBucket>`, modelled as an association list whose keys
are pairwise distinct. -/
def TokenBucketUltimate := List (String × TokenBucket)

/-- `HashMap::get` on the bucket mapping: first entry with the given key. -/
def TokenBucketUltimate.get : TokenBucketUltimate → String → Option TokenBucket
  | [], _ => none
  | (k0, b) :: rest, k => if k0 = k then some b else TokenBucketUltimate.get rest k

/-- Writing through `HashMap::get_mut(key)`: replace the value stored at
`key`, leaving every other entry unchanged (a no-op when the key is
absent, but the code only reaches it after a successful lookup). -/
def TokenBucketUltimate.set : TokenBucketUltimate → String → TokenBucket → TokenBucketUltimate
  | [], _, _ => []
  | (k0, b0) :: rest, k, v =>
    (if k0 = k then (k, v) else (k0, b0)) :: TokenBucketUltimate.set rest k v

/-- `Result::and` as used by the fold in `check_n`: keep the first error. -/
def exceptAnd (a b : Except Nat Unit) : Except Nat Unit :=
  match a with
  | Except.error e => Except.error e
  | Except.ok _ => b

/-- The fold inside `TokenBucketUltimate::check_n`:
`pairs.iter().map(|(key, n)| get(key).expect(..).check_n(n)).fold(Ok(()), |a, b| a.and(b))`.
The fold visits every pair (it does not stop at the first error), so an
unregistered key anywhere in the list panics (`none`). -/
def TokenBucketUltimate.check_n_go (store : TokenBucketUltimate) (now : Nat)
    (acc : Except Nat Unit) : List (String × Nat) → Option (Except Nat Unit)
  | [] => some acc
  | (k, n) :: rest =>
    match TokenBucketUltimate.get store k with
    | none => none
    | some b => TokenBucketUltimate.check_n_go store now (exceptAnd acc (b.check_n n now)) rest

/-- `TokenBucketUltimate::check_n`: non-mutating fold over the pairs. -/
def TokenBucketUltimate.check_n (store : TokenBucketUltimate) (pairs : List (String × Nat))
    (now : Nat) : Option (Except Nat Unit) :=
  TokenBucketUltimate.check_n_go store now (Except.ok ()) pairs

/-- The `try_for_each` inside `TokenBucketUltimate::try_take_n`: apply
`try_take_n` to each requested key's bucket in the working copy, in pair
order, stopping at the first failure. `none` is the `unwrap` panic on an
unregistered key. -/
def TokenBucketUltimate.try_take_n_go (now : Nat) :
    TokenBucketUltimate → List (String × Nat) → Option (TokenBucketUltimate × Except Nat Unit)
  | working, [] => some (working, Except.ok ())
  | working, (k, n) :: rest =>
    match TokenBucketUltimate.get working k with
    | none => none
    | some b =>
      let r := b.try_take_n n now
      let working1 := TokenBucketUltimate.set working k r.1
      match r.2 with
      | Except.ok () => TokenBucketUltimate.try_take_n_go now working1 rest
      | Except.error d => some (working1, Except.error d)

/-- `TokenBucketUltimate::try_take_n`: run the pairs against a working copy
(`self.0.clone()`); if every pair succeeded, the working copy becomes the
live mapping; otherwise the live mapping is returned unchanged and the
working copy is discarded. -/
def TokenBucketUltimate.try_take_n (store : TokenBucketUltimate) (pairs : List (String × Nat))
    (now : Nat) : Option (TokenBucketUltimate × Except Nat Unit) :=
  match TokenBucketUltimate.try_take_n_go now store pairs with
  | none => none
  | some (working, Except.ok ()) => some (working, Except.ok ())
  | some (_, Except.error d) => some (store, Except.error d)

/-! ### Helper lemmas about the single bucket -/

theorem refresh_quota (b : TokenBucket) (now : Nat) : (b.refresh now).quota = b.quota := rfl

theorem refresh_last_update (b : TokenBucket) (now : Nat) :
    (b.refresh now).last_update = now := rfl

theorem refresh_tokens_le (b : TokenBucket) (now : Nat) :
    (b.refresh now).tokens ≤ b.quota.max_burst :=
  Nat.min_le_right _ _

theorem check_n_zero (b : TokenBucket) (now : Nat) : b.check_n 0 now = Except.ok () := by
  unfold TokenBucket.check_n
  rw [if_pos (Nat.zero_le _)]

theorem try_take_n_eq_ok (b : TokenBucket) (n now : Nat)
    (h : (b.refresh now).check_n n now = Except.ok ()) :
    b.try_take_n n now
      = ({ b.refresh now with tokens := (b.refresh now).tokens - n }, Except.ok ()) := by
  unfold TokenBucket.try_take_n
  rw [h]

theorem try_take_n_eq_error (b : TokenBucket) (n now d : Nat)
    (h : (b.refresh now).check_n n now = Except.error d) :
    b.try_take_n n now = (b.refresh now, Except.error d) := by
  unfold TokenBucket.try_take_n
  rw [h]

theorem try_take_n_cases (b : TokenBucket) (n now : Nat) :
    b.try_take_n n now
        = ({ b.refresh now with tokens := (b.refresh now).tokens - n }, Except.ok ())
      ∨ ∃ d, b.try_take_n n now = (b.refresh now, Except.error d) := by
  cases h : (b.refresh now).check_n n now with
  | ok u => cases u; exact Or.inl (try_take_n_eq_ok b n now h)
  | error d => exact Or.inr ⟨d, try_take_n_eq_error b n now d h⟩

theorem check_n_refreshed_ok (b : TokenBucket) (n now : Nat)
    (hq : 0 < b.quota.replenish_1_per)
    (h : (b.refresh now).check_n n now = Except.ok ()) :
    n ≤ (b.refresh now).tokens := by
  by_contra hlt
  push_neg at hlt
  unfold TokenBucket.check_n at h
  rw [if_neg (by omega)] at h
  rw [refresh_quota, refresh_last_update] at h
  rw [if_pos] at h
  · exact Except.noConfusion h
  · have h1 : 1 ≤ n - (b.refresh now).tokens := by omega
    have h2 : 0 < b.quota.replenish_1_per * (n - (b.refresh now).tokens) :=
      Nat.mul_pos hq h1
    omega

theorem refresh_tokens_eq (b : TokenBucket) (now : Nat) :
    (b.refresh now).tokens
      = min ((b.tokens
            + asMicros (now - b.last_update) / asMicros b.quota.replenish_1_per % 2 ^ 32)
          % 2 ^ 32)
        b.quota.max_burst := rfl

/-! ### Claim theorems for the single bucket -/

/-- Claim C2, counterexample: with `tokens = 0`, `replenish_1_per = 1000` ns
and `last_update = 0`, the call `check_n 1` at instant `1000` returns `Ok`
even though `1 > tokens`: `check_n` has a second branch that consults the
elapsed time, so it does not fail whenever `n` exceeds the recorded count. -/
theorem check_n_claim_cex :
    TokenBucket.tokens ⟨⟨1, 1000⟩, 0, 0⟩ < 1 ∧
    TokenBucket.check_n ⟨⟨1, 1000⟩, 0, 0⟩ 1 1000 = Except.ok () :=
  ⟨by norm_num, rfl⟩

/-- Claim C2 (amended): `check_n` does not modify the bucket (it is a pure
function of the state); it succeeds iff `n ≤ tokens` or the elapsed time
since `last_update` already covers the deficit
(`replenish_interval × (n − tokens) ≤ elapsed`); otherwise it fails with
the deadline `last_update + replenish_interval × (n − tokens)`. -/
theorem check_n_characterization (b : TokenBucket) (n now : Nat) :
    (b.check_n n now = Except.ok () ↔
      n ≤ b.tokens ∨ b.quota.replenish_1_per * (n - b.tokens) ≤ now - b.last_update) ∧
    (∀ d, b.check_n n now = Except.error d →
      b.tokens < n ∧ d = b.last_update + b.quota.replenish_1_per * (n - b.tokens)) := by
  unfold TokenBucket.check_n
  split_ifs with h1 h2
  · constructor
    · exact ⟨fun _ => Or.inl h1, fun _ => rfl⟩
    · intro d hd
      simp at hd
  · constructor
    · constructor
      · intro hok
        simp at hok
      · intro hor
        exfalso
        rcases hor with h | h
        · exact h1 h
        · omega
    · intro d hd
      have hde : b.last_update + b.quota.replenish_1_per * (n - b.tokens) = d := by
        injection hd
      exact ⟨by omega, hde.symm⟩
  · constructor
    · exact ⟨fun _ => Or.inr (by omega), fun _ => rfl⟩
    · intro d hd
      simp at hd

/-- Witness for C2's amended theorem: a bucket with 0 tokens, a 250 ms
interval and `last_update = 0`, checked for 1 token at instant 0, fails
with deadline `0 + 250000000 × (1 − 0)`. -/
theorem check_n_characterization_witness :
    TokenBucket.tokens ⟨⟨4, 250000000⟩, 0, 0⟩ < 1 ∧
    (250000000 : Nat)
      = TokenBucket.last_update ⟨⟨4, 250000000⟩, 0, 0⟩
        + 250000000 * (1 - TokenBucket.tokens ⟨⟨4, 250000000⟩, 0, 0⟩) :=
  (check_n_characterization ⟨⟨4, 250000000⟩, 0, 0⟩ 1 0).2 250000000 rfl

/-- Claim C3, counterexample: for a bucket whose `replenish_1_per` is
1500 ns (as `with_period` can produce) with 0 tokens, waiting exactly
`2 × replenish_interval = 3000` ns earns 3 tokens, not
`floor(elapsed / replenish_interval) = 2`: the code divides whole
microsecond counts (`3 µs / 1 µs = 3`), not durations. -/
theorem try_take_n_refresh_claim_cex :
    (0 : Nat) < 1500 ∧ (3000 : Nat) = 2 * 1500 ∧
    (TokenBucket.try_take_n ⟨⟨5, 1500⟩, 0, 0⟩ 0 3000).1.tokens
      ≠ min (TokenBucket.tokens ⟨⟨5, 1500⟩, 0, 0⟩ + (3000 - 0) / 1500)
          (Quota.max_burst ⟨5, 1500⟩) := by
  decide

/-- Claim C3 (amended): for a bucket whose `replenish_interval` is a whole
positive number of microseconds (`1000 × m` nanoseconds, as every rate
constructor produces), and counts small enough not to hit the `u32`
truncation (`tokens + earned < 2^32`): the refresh stage of `try_take_n`
sets `tokens` to `min (tokens + floor(elapsed / replenish_interval))
max_burst` and `last_update` to `now`; in particular a `try_take_n 0`
(no intervening take) after waiting exactly `k × replenish_interval`
leaves `min (tokens + k) max_burst` tokens. -/
theorem try_take_n_refresh_formula (b : TokenBucket) (m e k : Nat) (hm : 1 ≤ m)
    (hrepl : b.quota.replenish_1_per = 1000 * m)
    (he : b.tokens + e / b.quota.replenish_1_per < 2 ^ 32)
    (hk : b.tokens + k < 2 ^ 32) :
    ((b.refresh (b.last_update + e)).tokens
        = min (b.tokens + e / b.quota.replenish_1_per) b.quota.max_burst
      ∧ (b.refresh (b.last_update + e)).last_update = b.last_update + e)
    ∧ (b.try_take_n 0 (b.last_update + k * b.quota.replenish_1_per)).1.tokens
        = min (b.tokens + k) b.quota.max_burst := by
  have key : ∀ e2, b.tokens + e2 / b.quota.replenish_1_per < 2 ^ 32 →
      (b.refresh (b.last_update + e2)).tokens
        = min (b.tokens + e2 / b.quota.replenish_1_per) b.quota.max_burst := by
    intro e2 he2
    rw [refresh_tokens_eq, Nat.add_sub_cancel_left]
    unfold asMicros
    rw [hrepl] at he2 ⊢
    rw [Nat.mul_div_cancel_left m (by norm_num : (0 : Nat) < 1000)]
    rw [Nat.div_div_eq_div_mul]
    have hglt : e2 / (1000 * m) < 2 ^ 32 := by omega
    rw [Nat.mod_eq_of_lt hglt, Nat.mod_eq_of_lt he2]
  refine ⟨⟨key e he, refresh_last_update b _⟩, ?_⟩
  have hchk : ((b.refresh (b.last_update + k * b.quota.replenish_1_per)).check_n 0
      (b.last_update + k * b.quota.replenish_1_per)) = Except.ok () :=
    check_n_zero _ _
  rw [try_take_n_eq_ok b 0 _ hchk]
  have hdiv : k * b.quota.replenish_1_per / b.quota.replenish_1_per = k := by
    rw [hrepl]
    exact Nat.mul_div_cancel k (by positivity)
  have := key (k * b.quota.replenish_1_per) (by rw [hdiv]; exact hk)
  rw [this, hdiv]
  exact Nat.sub_zero _

/-- Claim C4: on a fresh `TokenBucket` with quota `per_second(4)`, an
immediate `try_take_n(1)` does not succeed: `new` starts the bucket with
`tokens: 0`, so the call fails with deadline `construction + 250 ms`,
contradicting the claim and the repository's own `basic_token_bucket_test`
(which asserts the C4 sequence succeeds). -/
theorem try_take_n_fresh_bucket_fails :
    (TokenBucket.new (Quota.per_second 4) 0).try_take_n 1 0
      = ({ quota := Quota.per_second 4, tokens := 0, last_update := 0 },
          Except.error 250000000) := rfl

/-- Witness for C3's amended theorem: quota `per_second(4)` (interval
250000 µs) with 1 token; waiting 500 ms earns 2 tokens, and a
`try_take_n 0` after exactly `2 × 250 ms` leaves `min (1 + 2) 4 = 3`. -/
theorem try_take_n_refresh_formula_witness :
    ((TokenBucket.refresh ⟨⟨4, 250000000⟩, 1, 0⟩ (0 + 500000000)).tokens
        = min (1 + 500000000 / 250000000) 4
      ∧ (TokenBucket.refresh ⟨⟨4, 250000000⟩, 1, 0⟩ (0 + 500000000)).last_update
        = 0 + 500000000)
    ∧ (TokenBucket.try_take_n ⟨⟨4, 250000000⟩, 1, 0⟩ 0 (0 + 2 * 250000000)).1.tokens
        = min (1 + 2) 4 :=
  try_take_n_refresh_formula ⟨⟨4, 250000000⟩, 1, 0⟩ 250000 500000000 2
    (by norm_num) rfl (by norm_num) (by norm_num)

/-- Claim C6: when `try_take_n` returns, the refresh has been committed
whatever the outcome: the resulting state has `last_update = now` and the
quota field unchanged; on failure the state is exactly the refreshed
bucket (tokens not decremented), and only on success are the `n` tokens
deducted from the refreshed count. Scoped to buckets whose interval is at
least one microsecond, where `try_take_n` is panic-free (C10). -/
theorem try_take_n_frame (b : TokenBucket) (n now : Nat)
    (hq : 1000 ≤ b.quota.replenish_1_per) :
    (b.try_take_n n now).1.quota = b.quota ∧
    (b.try_take_n n now).1.last_update = now ∧
    (∀ d, (b.try_take_n n now).2 = Except.error d →
      (b.try_take_n n now).1 = b.refresh now) ∧
    ((b.try_take_n n now).2 = Except.ok () →
      (b.try_take_n n now).1.tokens = (b.refresh now).tokens - n) := by
  rcases try_take_n_cases b n now with h | ⟨d0, h⟩ <;> rw [h]
  · exact ⟨rfl, rfl, fun d hd => by simp at hd, fun _ => rfl⟩
  · exact ⟨rfl, rfl, fun d hd => rfl, fun hok => by simp at hok⟩

/-- Witness for C6: the failing `try_take_n(1)` on an empty `per_second(4)`
bucket still advances `last_update` to the call instant. -/
theorem try_take_n_frame_witness :
    (1000 ≤ 250000000) ∧
    (TokenBucket.try_take_n ⟨⟨4, 250000000⟩, 0, 0⟩ 1 7 ).1.last_update = 7 :=
  ⟨by norm_num, (try_take_n_frame ⟨⟨4, 250000000⟩, 0, 0⟩ 1 7 (by norm_num)).2.1⟩

/-- Claim C8, counterexample: `with_period` on a 500 ns duration returns
`None` although the duration is not zero — the rejection condition is
`as_micros() == 0`, i.e. any duration under one microsecond. -/
theorem with_period_claim_cex :
    Quota.with_period 500 = none ∧ (500 : Nat) ≠ 0 :=
  ⟨rfl, by norm_num⟩

/-- Claim C8 (amended): `with_period(d)` returns no value exactly when `d`
is under one microsecond (`d.as_micros() == 0`); for every `d` of at least
one microsecond it returns a quota with `max_burst = 1` and
`replenish_interval = d`. There is no other failure mode. -/
theorem with_period_characterization (d : Nat) :
    (Quota.with_period d = none ↔ d < 1000) ∧
    (1000 ≤ d → Quota.with_period d = some { max_burst := 1, replenish_1_per := d }) := by
  unfold Quota.with_period asMicros
  constructor
  · split_ifs with h
    · exact iff_of_true rfl (by omega)
    · exact iff_of_false (by simp) (by omega)
  · intro hd
    rw [if_neg (by omega)]

/-- Witness for C8's amended theorem at `d = 1500` ns. -/
theorem with_period_characterization_witness :
    (1000 ≤ 1500) ∧
    Quota.with_period 1500 = some { max_burst := 1, replenish_1_per := 1500 } :=
  ⟨by norm_num, (with_period_characterization 1500).2 (by norm_num)⟩

/-- Claim C9: for `n ≥ 1` (a `NonZeroU32`), the three rate constructors
set `max_burst = n` and derive the replenish interval as the period
divided by `n` under integer microsecond truncation: `10^6 / n`,
`6·10^7 / n` and `3.6·10^9 / n` microseconds respectively. -/
theorem rate_constructor_intervals (n : Nat) (h1 : 1 ≤ n) (h2 : n < 2 ^ 32) :
    ((Quota.per_second n).max_burst = n
      ∧ asMicros (Quota.per_second n).replenish_1_per = 1000000 / n)
    ∧ ((Quota.per_minute n).max_burst = n
      ∧ asMicros (Quota.per_minute n).replenish_1_per = 60000000 / n)
    ∧ ((Quota.per_hour n).max_burst = n
      ∧ asMicros (Quota.per_hour n).replenish_1_per = 3600000000 / n) := by
  have key : ∀ p : Nat, p ≤ 3600000000 → asMicros (fromMicros (p / n)) = p / n := by
    intro p hp
    unfold asMicros fromMicros
    have hlt : p / n < 2 ^ 64 :=
      lt_of_le_of_lt (le_trans (Nat.div_le_self p n) hp)
        (by norm_num : (3600000000 : Nat) < 2 ^ 64)
    rw [Nat.mod_eq_of_lt hlt]
    omega
  exact ⟨⟨rfl, key 1000000 (by norm_num)⟩, ⟨rfl, key 60000000 (by norm_num)⟩,
    ⟨rfl, key 3600000000 (by norm_num)⟩⟩

/-- Witness for C9 at `n = 4`. -/
theorem rate_constructor_intervals_witness :
    ((1 ≤ 4) ∧ (4 < 2 ^ 32)) ∧
    (((Quota.per_second 4).max_burst = 4
      ∧ asMicros (Quota.per_second 4).replenish_1_per = 1000000 / 4)
    ∧ ((Quota.per_minute 4).max_burst = 4
      ∧ asMicros (Quota.per_minute 4).replenish_1_per = 60000000 / 4)
    ∧ ((Quota.per_hour 4).max_burst = 4
      ∧ asMicros (Quota.per_hour 4).replenish_1_per = 3600000000 / 4)) :=
  ⟨⟨by norm_num, by norm_num⟩, rate_constructor_intervals 4 (by norm_num) (by norm_num)⟩

/-- Claim C10: for a bucket whose `replenish_interval` is at least one
microsecond, the division inside `try_take_n` has a nonzero divisor
(`replenish_1_per.as_micros() ≠ 0`), and on the success path (the
refreshed bucket passes `check_n`) the deduction cannot underflow
(`n` is at most the refreshed token count). The precondition is indeed
reachable from the public API: `per_second(2_000_000)` truncates the
interval to zero. -/
theorem try_take_n_no_panic (b : TokenBucket) (n now : Nat)
    (hq : 1000 ≤ b.quota.replenish_1_per) :
    asMicros b.quota.replenish_1_per ≠ 0 ∧
    ((b.refresh now).check_n n now = Except.ok () → n ≤ (b.refresh now).tokens) ∧
    (Quota.per_second 2000000).replenish_1_per = 0 := by
  refine ⟨?_, ?_, rfl⟩
  · unfold asMicros
    omega
  · exact check_n_refreshed_ok b n now (by omega)

/-- Witness for C10 on a `per_second(4)` bucket. -/
theorem try_take_n_no_panic_witness :
    (1000 ≤ 250000000) ∧ asMicros 250000000 ≠ 0 :=
  ⟨by norm_num, (try_take_n_no_panic ⟨⟨4, 250000000⟩, 0, 0⟩ 1 0 (by norm_num)).1⟩

/-- Bucket states reachable from `TokenBucket::new` by any sequence of
`check_n` and `try_take_n` calls. `check_n` takes `&self` and returns no
state, so only `try_take_n` steps change the bucket; the monotonic clock
guarantees each call's instant is no earlier than the bucket's
`last_update` (which was itself observed from the same clock). -/
inductive Reachable (quota : Quota) (t0 : Nat) : TokenBucket → Prop
  | init : Reachable quota t0 (TokenBucket.new quota t0)
  | take (b : TokenBucket) (n now : Nat) (hnow : b.last_update ≤ now)
      (hb : Reachable quota t0 b) : Reachable quota t0 (b.try_take_n n now).1

/-- Claim C5: on every reachable bucket, `tokens` never exceeds
`quota.max_burst` (the quota field itself never changes), and
`last_update` never moves backward: each `try_take_n` sets it to the call
instant, which is no earlier than its previous value. -/
theorem reachable_invariants (quota : Quota) (t0 : Nat) (b : TokenBucket)
    (hq : 0 < quota.replenish_1_per) (hb : Reachable quota t0 b) :
    b.quota = quota ∧ b.tokens ≤ b.quota.max_burst ∧
    (∀ n now, b.last_update ≤ now → b.last_update ≤ (b.try_take_n n now).1.last_update) := by
  induction hb with
  | init =>
    refine ⟨rfl, Nat.zero_le _, ?_⟩
    intro n now hnow
    rcases try_take_n_cases (TokenBucket.new quota t0) n now with h | ⟨d0, h⟩ <;> rw [h] <;>
      exact hnow
  | take b n now hnow hb ih =>
    have hstep : ∀ b2 : TokenBucket, ∀ n2 now2 : Nat,
        (b2.try_take_n n2 now2).1.quota = b2.quota ∧
        (b2.try_take_n n2 now2).1.tokens ≤ b2.quota.max_burst ∧
        (b2.try_take_n n2 now2).1.last_update = now2 := by
      intro b2 n2 now2
      rcases try_take_n_cases b2 n2 now2 with h | ⟨d0, h⟩ <;> rw [h]
      · exact ⟨rfl, le_trans (Nat.sub_le _ _) (refresh_tokens_le b2 now2), rfl⟩
      · exact ⟨rfl, refresh_tokens_le b2 now2, rfl⟩
    rcases ih with ⟨ihq, ihtok, ihlast⟩
    rcases hstep b n now with ⟨hq2, htok2, hlast2⟩
    refine ⟨by rw [hq2, ihq], by rw [hq2]; rw [ihq] at htok2 ⊢; exact htok2, ?_⟩
    intro n3 now3 hnow3
    rcases try_take_n_cases ((b.try_take_n n now).1) n3 now3 with h | ⟨d0, h⟩ <;> rw [h] <;>
      exact hnow3

/-- Witness for C5: the freshly constructed `per_second(4)` bucket is
reachable and satisfies the token bound. -/
theorem reachable_invariants_witness :
    (0 < (Quota.per_second 4).replenish_1_per) ∧
    (TokenBucket.new (Quota.per_second 4) 0).tokens
      ≤ (TokenBucket.new (Quota.per_second 4) 0).quota.max_burst :=
  ⟨by decide,
    (reachable_invariants (Quota.per_second 4) 0 _ (by decide) Reachable.init).2.1⟩

/-- First failing deadline over the pairs, in pair order — written from the
claim's words ("the surfaced error is the deadline of the first failing
pair in pair order"), to be compared with the fold the code performs. -/
def firstFailingDeadline (store : TokenBucketUltimate) (pairs : List (String × Nat))
    (now : Nat) : Option Nat :=
  pairs.findSome? fun p =>
    match TokenBucketUltimate.get store p.1 with
    | some b =>
      match b.check_n p.2 now with
      | Except.error d => some d
      | Except.ok _ => none
    | none => none

/-- The claim's reading of the multi-key check: succeed iff no pair fails,
otherwise surface the first failing deadline. -/
def check_ns_spec (store : TokenBucketUltimate) (pairs : List (String × Nat)) (now : Nat) :
    Except Nat Unit :=
  match firstFailingDeadline store pairs now with
  | some d => Except.error d
  | none => Except.ok ()

theorem check_ns_spec_cons_ok (store : TokenBucketUltimate) (k : String) (n : Nat)
    (rest : List (String × Nat)) (now : Nat) (b : TokenBucket)
    (hb : TokenBucketUltimate.get store k = some b)
    (hc : b.check_n n now = Except.ok ()) :
    check_ns_spec store ((k, n) :: rest) now = check_ns_spec store rest now := by
  unfold check_ns_spec firstFailingDeadline
  rw [List.findSome?_cons]
  simp [hb, hc]

theorem check_ns_spec_cons_error (store : TokenBucketUltimate) (k : String) (n : Nat)
    (rest : List (String × Nat)) (now : Nat) (b : TokenBucket) (d : Nat)
    (hb : TokenBucketUltimate.get store k = some b)
    (hc : b.check_n n now = Except.error d) :
    check_ns_spec store ((k, n) :: rest) now = Except.error d := by
  unfold check_ns_spec firstFailingDeadline
  rw [List.findSome?_cons]
  simp [hb, hc]

theorem check_n_go_error (store : TokenBucketUltimate) (now e : Nat)
    (pairs : List (String × Nat))
    (hreg : ∀ p ∈ pairs, (TokenBucketUltimate.get store p.1).isSome) :
    TokenBucketUltimate.check_n_go store now (Except.error e) pairs
      = some (Except.error e) := by
  induction pairs with
  | nil => rfl
  | cons p rest ih =>
    obtain ⟨k, n⟩ := p
    obtain ⟨b, hb⟩ := Option.isSome_iff_exists.mp (hreg (k, n) (List.mem_cons_self _ _))
    unfold TokenBucketUltimate.check_n_go
    rw [hb]
    exact ih fun q hq => hreg q (List.mem_cons_of_mem _ hq)

theorem check_n_go_cons (store : TokenBucketUltimate) (now : Nat) (acc : Except Nat Unit)
    (k : String) (n : Nat) (rest : List (String × Nat)) (b : TokenBucket)
    (hb : TokenBucketUltimate.get store k = some b) :
    TokenBucketUltimate.check_n_go store now acc ((k, n) :: rest)
      = TokenBucketUltimate.check_n_go store now (exceptAnd acc (b.check_n n now)) rest := by
  conv_lhs => rw [TokenBucketUltimate.check_n_go]
  rw [hb]

theorem check_n_go_ok (store : TokenBucketUltimate) (now : Nat)
    (pairs : List (String × Nat))
    (hreg : ∀ p ∈ pairs, (TokenBucketUltimate.get store p.1).isSome) :
    TokenBucketUltimate.check_n_go store now (Except.ok ()) pairs
      = some (check_ns_spec store pairs now) := by
  induction pairs with
  | nil => rfl
  | cons p rest ih =>
    obtain ⟨k, n⟩ := p
    obtain ⟨b, hb⟩ := Option.isSome_iff_exists.mp (hreg (k, n) (List.mem_cons_self _ _))
    have hrest : ∀ q ∈ rest, (TokenBucketUltimate.get store q.1).isSome :=
      fun q hq => hreg q (List.mem_cons_of_mem _ hq)
    rw [check_n_go_cons store now _ k n rest b hb]
    cases hc : b.check_n n now with
    | ok u =>
      cases u
      rw [check_ns_spec_cons_ok store k n rest now b hb hc]
      exact ih hrest
    | error d =>
      rw [check_ns_spec_cons_error store k n rest now b d hb hc]
      exact check_n_go_error store now d rest hrest

theorem check_ns_spec_ok_iff (store : TokenBucketUltimate) (pairs : List (String × Nat))
    (now : Nat) :
    check_ns_spec store pairs now = Except.ok () ↔
      ∀ p ∈ pairs, ∀ b, TokenBucketUltimate.get store p.1 = some b →
        b.check_n p.2 now = Except.ok () := by
  induction pairs with
  | nil => simp [check_ns_spec, firstFailingDeadline]
  | cons p rest ih =>
    obtain ⟨k, n⟩ := p
    cases hg : TokenBucketUltimate.get store k with
    | none =>
      have hcons : check_ns_spec store ((k, n) :: rest) now = check_ns_spec store rest now := by
        unfold check_ns_spec firstFailingDeadline
        rw [List.findSome?_cons]
        simp [hg]
      rw [hcons, ih]
      constructor
      · intro hall q hq b2 hb2
        rcases List.mem_cons.mp hq with heq | hq2
        · subst heq
          rw [hg] at hb2
          exact absurd hb2 (by simp)
        · exact hall q hq2 b2 hb2
      · intro hall q hq b2 hb2
        exact hall q (List.mem_cons_of_mem _ hq) b2 hb2
    | some b =>
      cases hc : b.check_n n now with
      | ok u =>
        cases u
        rw [check_ns_spec_cons_ok store k n rest now b hg hc, ih]
        constructor
        · intro hall q hq b2 hb2
          rcases List.mem_cons.mp hq with heq | hq2
          · subst heq
            rw [hg] at hb2
            injection hb2 with hb2
            rw [← hb2]
            exact hc
          · exact hall q hq2 b2 hb2
        · intro hall q hq b2 hb2
          exact hall q (List.mem_cons_of_mem _ hq) b2 hb2
      | error d =>
        rw [check_ns_spec_cons_error store k n rest now b d hg hc]
        constructor
        · intro h
          exact absurd h (by simp)
        · intro hall
          have := hall (k, n) (List.mem_cons_self _ _) b hg
          rw [hc] at this
          exact absurd this (by simp)

/-- Claim C7: `check_ns` (`TokenBucketUltimate::check_n`) mutates nothing
(it is a pure function of the store); for registered keys it never panics
and returns exactly the claim's value: success iff every pair's `check_n`
on its bucket succeeds, and on failure the deadline of the first failing
pair in pair order. -/
theorem check_ns_correct (store : TokenBucketUltimate) (pairs : List (String × Nat))
    (now : Nat)
    (hreg : ∀ p ∈ pairs, (TokenBucketUltimate.get store p.1).isSome) :
    TokenBucketUltimate.check_n store pairs now = some (check_ns_spec store pairs now) ∧
    (check_ns_spec store pairs now = Except.ok () ↔
      ∀ p ∈ pairs, ∀ b, TokenBucketUltimate.get store p.1 = some b →
        b.check_n p.2 now = Except.ok ()) :=
  ⟨check_n_go_ok store now pairs hreg, check_ns_spec_ok_iff store pairs now⟩

/-- Witness for C7: a one-key store checked for 2 of its 5 tokens. -/
theorem check_ns_correct_witness :
    TokenBucketUltimate.check_n [("a", ⟨⟨10, 100000000⟩, 5, 0⟩)] [("a", 2)] 0
      = some (check_ns_spec [("a", ⟨⟨10, 100000000⟩, 5, 0⟩)] [("a", 2)] 0) :=
  (check_ns_correct [("a", ⟨⟨10, 100000000⟩, 5, 0⟩)] [("a", 2)] 0 (by decide)).1

theorem get_cons (k0 : String) (b0 : TokenBucket) (rest : List (String × TokenBucket))
    (k : String) :
    TokenBucketUltimate.get ((k0, b0) :: rest) k
      = if k0 = k then some b0 else TokenBucketUltimate.get rest k := rfl

theorem set_cons (k0 : String) (b0 : TokenBucket) (rest : List (String × TokenBucket))
    (k : String) (v : TokenBucket) :
    TokenBucketUltimate.set ((k0, b0) :: rest) k v
      = (if k0 = k then (k, v) else (k0, b0)) :: TokenBucketUltimate.set rest k v := rfl

theorem get_set_self (store : List (String × TokenBucket)) (k : String) (v : TokenBucket)
    (h : (TokenBucketUltimate.get store k).isSome) :
    TokenBucketUltimate.get (TokenBucketUltimate.set store k v) k = some v := by
  induction store with
  | nil => simp [TokenBucketUltimate.get] at h
  | cons p rest ih =>
    obtain ⟨k0, b0⟩ := p
    by_cases hk : k0 = k
    · subst hk
      rw [set_cons, if_pos rfl, get_cons, if_pos rfl]
    · have h2 : (TokenBucketUltimate.get rest k).isSome := by
        rw [get_cons, if_neg hk] at h
        exact h
      rw [set_cons, if_neg hk, get_cons, if_neg hk]
      exact ih h2

theorem get_set_ne (store : List (String × TokenBucket)) (k q : String) (v : TokenBucket)
    (hne : q ≠ k) :
    TokenBucketUltimate.get (TokenBucketUltimate.set store k v) q
      = TokenBucketUltimate.get store q := by
  induction store with
  | nil => rfl
  | cons p rest ih =>
    obtain ⟨k0, b0⟩ := p
    by_cases hk : k0 = k
    · subst hk
      rw [set_cons, if_pos rfl]
      rw [get_cons, if_neg (Ne.symm hne)]
      rw [get_cons, if_neg (Ne.symm hne)]
      exact ih
    · rw [set_cons, if_neg hk]
      rw [get_cons]
      rw [get_cons]
      by_cases hq : k0 = q
      · simp only [if_pos hq]
      · simp only [if_neg hq]
        exact ih

theorem get_set_isSome (store : List (String × TokenBucket)) (k q : String) (v : TokenBucket)
    (h : (TokenBucketUltimate.get store q).isSome) :
    (TokenBucketUltimate.get (TokenBucketUltimate.set store k v) q).isSome := by
  by_cases hq : q = k
  · subst hq
    rw [get_set_self store q v h]
    rfl
  · rw [get_set_ne store k q v hq]
    exact h

theorem try_take_n_go_spec (now : Nat) (pairs : List (String × Nat)) :
    ∀ working : List (String × TokenBucket),
    (pairs.map Prod.fst).Nodup →
    (∀ p ∈ pairs, (TokenBucketUltimate.get working p.1).isSome) →
    ∃ res, TokenBucketUltimate.try_take_n_go now working pairs = some res ∧
      (res.2 = Except.ok () →
        (∀ k n b, (k, n) ∈ pairs → TokenBucketUltimate.get working k = some b →
          TokenBucketUltimate.get res.1 k = some (b.try_take_n n now).1
            ∧ (b.try_take_n n now).2 = Except.ok ()) ∧
        (∀ k, k ∉ pairs.map Prod.fst →
          TokenBucketUltimate.get res.1 k = TokenBucketUltimate.get working k)) := by
  induction pairs with
  | nil =>
    intro working hnodup hreg
    refine ⟨(working, Except.ok ()), rfl, fun _ => ⟨?_, ?_⟩⟩
    · intro k n b hmem
      exact absurd hmem (List.not_mem_nil _)
    · intro k hk
      rfl
  | cons p rest ih =>
    intro working hnodup hreg
    obtain ⟨k0, n0⟩ := p
    obtain ⟨b0, hb0⟩ := Option.isSome_iff_exists.mp (hreg (k0, n0) (List.mem_cons_self _ _))
    have hnodup2 : k0 ∉ rest.map Prod.fst ∧ (rest.map Prod.fst).Nodup :=
      List.nodup_cons.mp (by simpa using hnodup)
    cases hr : b0.try_take_n n0 now with
    | mk st rc =>
      cases rc with
      | error d =>
        have hgo : TokenBucketUltimate.try_take_n_go now working ((k0, n0) :: rest)
            = some (TokenBucketUltimate.set working k0 st, Except.error d) := by
          conv_lhs => rw [TokenBucketUltimate.try_take_n_go]
          rw [hb0]
          simp only [hr]
        refine ⟨(TokenBucketUltimate.set working k0 st, Except.error d), hgo, ?_⟩
        intro hok
        exact absurd hok (by simp)
      | ok u =>
        cases u
        have hreg1 : ∀ q ∈ rest,
            (TokenBucketUltimate.get (TokenBucketUltimate.set working k0 st) q.1).isSome :=
          fun q hq => get_set_isSome working k0 q.1 st (hreg q (List.mem_cons_of_mem _ hq))
        obtain ⟨res, hres, hspec⟩ := ih (TokenBucketUltimate.set working k0 st) hnodup2.2 hreg1
        have hgo : TokenBucketUltimate.try_take_n_go now working ((k0, n0) :: rest)
            = TokenBucketUltimate.try_take_n_go now
                (TokenBucketUltimate.set working k0 st) rest := by
          conv_lhs => rw [TokenBucketUltimate.try_take_n_go]
          rw [hb0]
          simp only [hr]
        refine ⟨res, by rw [hgo]; exact hres, ?_⟩
        intro hok
        obtain ⟨hpairs, hunreq⟩ := hspec hok
        constructor
        · intro k n b hmem hget
          rcases List.mem_cons.mp hmem with heq | hmem2
          · injection heq with hk hn
            subst hk
            subst hn
            rw [hb0] at hget
            injection hget with hget
            subst hget
            rw [hr]
            refine ⟨?_, rfl⟩
            rw [hunreq k hnodup2.1]
            exact get_set_self working k st
              (Option.isSome_iff_exists.mpr ⟨b0, hb0⟩)
          · have hkne : k ≠ k0 := by
              intro he
              subst he
              exact hnodup2.1 (List.mem_map.mpr ⟨(k, n), hmem2, rfl⟩)
            exact hpairs k n b hmem2
              (by rw [get_set_ne working k0 k st hkne]; exact hget)
        · intro k hk
          have hk1 : k ∉ rest.map Prod.fst := by
            intro hin
            exact hk (List.mem_cons_of_mem _ hin)
          have hkne : k ≠ k0 := by
            intro he
            subst he
            exact hk (List.mem_cons_self _ _)
          rw [hunreq k hk1]
          exact get_set_ne working k0 k st hkne

/-- Claim C1: `try_take_ns` is all-or-nothing. For duplicate-free
registered keys: on failure the live mapping is returned exactly as it was
(the refreshed working copy is discarded); on success every requested
key's bucket is the refreshed bucket with its requested amount deducted,
and every non-requested key's bucket is unchanged. -/
theorem try_take_ns_atomic (store : TokenBucketUltimate) (pairs : List (String × Nat))
    (now : Nat)
    (hnodup : (pairs.map Prod.fst).Nodup)
    (hreg : ∀ p ∈ pairs, (TokenBucketUltimate.get store p.1).isSome) :
    ∃ res, TokenBucketUltimate.try_take_n store pairs now = some res ∧
      (∀ d, res.2 = Except.error d → res.1 = store) ∧
      (res.2 = Except.ok () →
        (∀ k n b, (k, n) ∈ pairs → TokenBucketUltimate.get store k = some b →
          TokenBucketUltimate.get res.1 k
            = some { b.refresh now with tokens := (b.refresh now).tokens - n }) ∧
        (∀ k, k ∉ pairs.map Prod.fst →
          TokenBucketUltimate.get res.1 k = TokenBucketUltimate.get store k)) := by
  obtain ⟨res0, hres0, hspec0⟩ := try_take_n_go_spec now pairs store hnodup hreg
  obtain ⟨w, r⟩ := res0
  cases r with
  | ok u =>
    cases u
    refine ⟨(w, Except.ok ()), ?_, ?_, ?_⟩
    · unfold TokenBucketUltimate.try_take_n
      rw [hres0]
    · intro d hd
      exact absurd hd (by simp)
    · intro _
      obtain ⟨hp, hu⟩ := hspec0 rfl
      refine ⟨?_, hu⟩
      intro k n b hmem hget
      obtain ⟨h1, h2⟩ := hp k n b hmem hget
      rw [h1]
      rcases try_take_n_cases b n now with h | ⟨d0, h⟩
      · rw [h]
      · rw [h] at h2
        exact absurd h2 (by simp)
  | error d =>
    refine ⟨(store, Except.error d), ?_, ?_, ?_⟩
    · unfold TokenBucketUltimate.try_take_n
      rw [hres0]
    · intro d2 hd
      rfl
    · intro hok
      exact absurd hok (by simp)

/-- Witness for C1: a one-key store taking 2 of its 5 tokens. -/
theorem try_take_ns_atomic_witness :
    ((([("a", 2)] : List (String × Nat)).map Prod.fst).Nodup ∧
      ∀ p ∈ ([("a", 2)] : List (String × Nat)),
        (TokenBucketUltimate.get [("a", ⟨⟨10, 100000000⟩, 5, 0⟩)] p.1).isSome) ∧
    ∃ res, TokenBucketUltimate.try_take_n [("a", ⟨⟨10, 100000000⟩, 5, 0⟩)] [("a", 2)] 7
        = some res ∧
      (∀ d, res.2 = Except.error d → res.1 = [("a", ⟨⟨10, 100000000⟩, 5, 0⟩)]) ∧
      (res.2 = Except.ok () →
        (∀ k n b, (k, n) ∈ ([("a", 2)] : List (String × Nat)) →
          TokenBucketUltimate.get [("a", ⟨⟨10, 100000000⟩, 5, 0⟩)] k = some b →
          TokenBucketUltimate.get res.1 k
            = some { b.refresh 7 with tokens := (b.refresh 7).tokens - n }) ∧
        (∀ k, k ∉ ([("a", 2)] : List (String × Nat)).map Prod.fst →
          TokenBucketUltimate.get res.1 k
            = TokenBucketUltimate.get [("a", ⟨⟨10, 100000000⟩, 5, 0⟩)] k)) :=
  ⟨⟨by decide, by decide⟩,
    try_take_ns_atomic [("a", ⟨⟨10, 100000000⟩, 5, 0⟩)] [("a", 2)] 7
      (by decide) (by decide)⟩
